import Mathlib

/-!
Verification of the marketplace routing and link validation core of the
photo-marketplace-search service.

The development shallowly embeds the two services under scrutiny:

* `src/services/url_builder.py` — category→marketplace routing, percent
  encoding of search phrases, and link construction;
* `src/services/link_validator.py` — the "has results" page heuristic and
  the fail-open, order-preserving filtering of fetched links.

Python strings are embedded as Lean `String`; machine integers do not occur
in this core. Network fetches (httpx) and HTML parsing (BeautifulSoup) are
external collaborators: a fetched, parsed page is abstracted by the two
observations the code makes of it — its visible text (`soup.get_text()`)
and, for each CSS selector, the number of matching elements
(`len(soup.select(sel))`). A fetch outcome is a sum of success and the
failure shapes distinguished by the code. Confidence scores and the
description field carry no logic in either service and are omitted from the
embedded records.
-/

/-- One search phrase from the vision analysis
(`SearchQuery` in `src/models/responses.py`; the confidence field is
never read by the URL builder and is omitted). -/
structure SearchQuery where
  query : String
deriving DecidableEq

/-- Result of the vision analysis (`VisionAnalysisResult` in
`src/models/responses.py`). `object_type` is kept as an arbitrary string so
that routing of unknown categories can be stated; the pydantic model limits
it to six literals, all of which are covered by the theorems below. -/
structure VisionAnalysisResult where
  object_type : String
  search_queries : List SearchQuery
deriving DecidableEq

/-- A built marketplace search link (`MarketplaceLink` in
`src/models/responses.py`). -/
structure MarketplaceLink where
  marketplace : String
  query : String
  url : String
deriving DecidableEq

/-- The routing table `MARKETPLACE_URLS` of `src/services/url_builder.py`:
category ↦ (marketplace name, URL template). -/
def MARKETPLACE_URLS : List (String × String × String) :=
  [("book", ("abebooks", "https://www.abebooks.fr/servlet/SearchResults?kn={query}&sts=t")),
   ("clothing", ("vinted", "https://www.vinted.fr/catalog?search_text={query}"))]

/-- The default marketplace `DEFAULT_MARKETPLACE` of
`src/services/url_builder.py`, used for categories absent from
`MARKETPLACE_URLS`. -/
def DEFAULT_MARKETPLACE : String × String :=
  ("leboncoin", "https://www.leboncoin.fr/recherche?text={query}")

/-- `get_marketplace_for_type` of `src/services/url_builder.py`:
`MARKETPLACE_URLS.get(object_type, DEFAULT_MARKETPLACE)`. -/
def get_marketplace_for_type (object_type : String) : String × String :=
  (MARKETPLACE_URLS.lookup object_type).getD DEFAULT_MARKETPLACE

/-- Uppercase hexadecimal digit for a value below 16, as produced by
Python's percent encoder. -/
def hexDigit (n : Nat) : Char :=
  if n < 10 then Char.ofNat (48 + n) else Char.ofNat (55 + n)

/-- The bytes Python's `urllib.parse.quote` leaves unescaped when called
with `safe=""`: ASCII letters, digits, and the four marks `-`, `.`, `_`,
`~` (the RFC 3986 unreserved set). -/
def isSafeByte (b : Nat) : Bool :=
  decide ((65 ≤ b ∧ b ≤ 90) ∨ (97 ≤ b ∧ b ≤ 122) ∨ (48 ≤ b ∧ b ≤ 57) ∨
    b = 45 ∨ b = 46 ∨ b = 95 ∨ b = 126)

/-- UTF-8 encoding of one code point, byte by byte, as Python's
`str.encode("utf-8")` produces inside `quote`. -/
def utf8Bytes (c : Char) : List Nat :=
  let n := c.toNat
  if n < 128 then [n]
  else if n < 2048 then [192 + n / 64, 128 + n % 64]
  else if n < 65536 then [224 + n / 4096, 128 + (n / 64) % 64, 128 + n % 64]
  else [240 + n / 262144, 128 + (n / 4096) % 64, 128 + (n / 64) % 64, 128 + n % 64]

/-- Per-byte step of `urllib.parse.quote`: a safe byte stands for itself,
any other byte becomes `%` followed by two uppercase hex digits. -/
def quoteByte (b : Nat) : List Char :=
  if isSafeByte b then [Char.ofNat b]
  else ['%', hexDigit (b / 16), hexDigit (b % 16)]

/-- `encode_query` of `src/services/url_builder.py`:
`urllib.parse.quote(query, safe="")`, i.e. percent-encode every non-safe
byte of the UTF-8 encoding of the query. -/
def encode_query (query : String) : String :=
  String.mk ((query.data.flatMap utf8Bytes).flatMap quoteByte)

/-- Substitution step of Python's `url_template.format(query=...)` for the
templates of this service: every occurrence of the placeholder
`\x7bquery\x7d` is replaced by the replacement text. -/
def substQuery (repl : List Char) : List Char → List Char
  | [] => []
  | '\x7b' :: 'q' :: 'u' :: 'e' :: 'r' :: 'y' :: '\x7d' :: rest2 =>
    repl ++ substQuery repl rest2
  | c :: rest => c :: substQuery repl rest

/-- `url_template.format(query=encoded_query)` as used by
`build_marketplace_link`. -/
def format_template (template : String) (encoded : String) : String :=
  String.mk (substQuery encoded.data template.data)

/-- `build_marketplace_link` of `src/services/url_builder.py`. -/
def build_marketplace_link (marketplace_name : String) (url_template : String)
    (query : String) : MarketplaceLink :=
  let encoded_query := encode_query query
  let url := format_template url_template encoded_query
  { marketplace := marketplace_name, query := query, url := url }

/-- `build_marketplace_links` of `src/services/url_builder.py`: route on the
object type, then build one link per search query, truncated by Python's
slice `search_queries[:max_links]`. The Python default for `max_links` is 5;
the slice bound is embedded as a natural number, matching every
non-negative call site. -/
def build_marketplace_links (analysis : VisionAnalysisResult)
    (max_links : Nat := 5) : List MarketplaceLink :=
  let mp := get_marketplace_for_type analysis.object_type
  (analysis.search_queries.take max_links).map fun search_query =>
    build_marketplace_link mp.1 mp.2 search_query.query

/-- The per-marketplace detection rules of `MARKETPLACE_SELECTORS` in
`src/services/link_validator.py`: the "no results" phrases and the CSS
selector for result items. -/
structure Selectors where
  no_results_text : List String
  results_selector : String
deriving DecidableEq

/-- `MARKETPLACE_SELECTORS` of `src/services/link_validator.py`. -/
def MARKETPLACE_SELECTORS : List (String × Selectors) :=
  [("abebooks",
    { no_results_text := ["aucun résultat", "no results found", "0 résultat"],
      results_selector := ".result-item, .cf-search-results-content, #srp-results" }),
   ("vinted",
    { no_results_text := ["aucun article", "aucun résultat"],
      results_selector := ".feed-grid__item, .ItemBox_container, [data-testid=\x27item-box\x27]" }),
   ("leboncoin",
    { no_results_text := ["aucune annonce", "0 annonce trouvée", "pas de résultat"],
      results_selector := "[data-qa-id=\x27aditem_container\x27], .styles_adCard, [data-test-id=\x27ad\x27]" })]

/-- The empty selector dictionary Python falls back to for an unknown
marketplace: `MARKETPLACE_SELECTORS.get(marketplace, \x7b\x7d)`, under which
`.get("no_results_text", [])` is `[]` and `.get("results_selector", "")`
is `""`. -/
def emptySelectors : Selectors :=
  { no_results_text := [], results_selector := "" }

/-- Selector lookup performed by `check_for_results`. -/
def selectorsFor (marketplace : String) : Selectors :=
  (MARKETPLACE_SELECTORS.lookup marketplace).getD emptySelectors

/-- One character of Python's `str.lower`, restricted to the ASCII and
Latin-1 letter ranges; these cover every character of the phrase tables and
of the French marketplace pages the heuristic inspects. -/
def pyLowerChar (c : Char) : Char :=
  let n := c.toNat
  if 65 ≤ n ∧ n ≤ 90 then Char.ofNat (n + 32)
  else if 192 ≤ n ∧ n ≤ 222 ∧ n ≠ 215 then Char.ofNat (n + 32)
  else c

/-- Python's `str.lower` on the embedded character range. -/
def pyLower (s : String) : String :=
  String.mk (s.data.map pyLowerChar)

/-- Python's list/string prefix test at character level. -/
def charPrefix : List Char → List Char → Bool
  | [], _ => true
  | _ :: _, [] => false
  | a :: as, b :: bs => a == b && charPrefix as bs

/-- Python's substring membership `sub in s`, at character level. -/
def charInfix (sub : List Char) : List Char → Bool
  | [] => charPrefix sub []
  | y :: ys => charPrefix sub (y :: ys) || charInfix sub ys

/-- Python's `sub in s` on strings: does `sub` occur contiguously in `s`? -/
def containsSubstr (s sub : String) : Bool :=
  charInfix sub.data s.data

/-- A fetched, HTML-parsed page, abstracted by the two observations
`check_for_results` makes of the BeautifulSoup object: the visible text
(`soup.get_text()`) and the number of elements matching a CSS selector
(`len(soup.select(sel))`). -/
structure Page where
  text : String
  select_count : String → Nat

/-- `check_for_results` of `src/services/link_validator.py`: the phrase
check on the lower-cased page text fires first and returns `false`; the
structural selector check can only return `true`; the default is `true`. -/
def check_for_results (page : Page) (marketplace : String) : Bool :=
  let selectors := selectorsFor marketplace
  let page_text := pyLower page.text
  if selectors.no_results_text.any
      (fun phrase => containsSubstr page_text (pyLower phrase)) then
    false
  else
    if selectors.results_selector ≠ "" ∧
        page.select_count selectors.results_selector > 0 then
      true
    else
      true

/-- Outcome of the HTTP fetch of one link inside `validate_single_link`:
either a parsed page from a 2xx response, or one of the failure shapes the
code distinguishes (`httpx.TimeoutException`; the `HTTPStatusError` raised
by `raise_for_status` on a non-2xx status; connection errors and any other
exception, all caught by the generic `except Exception` arm). -/
inductive FetchResult where
  | success (page : Page)
  | timeout
  | httpStatusError (status : Nat)
  | connectionError
  | otherError

/-- `validate_single_link` of `src/services/link_validator.py`, with the
fetch outcome passed explicitly: on success the page heuristic decides, on
every failure the link is assumed valid (fail open). -/
def validate_single_link (link : MarketplaceLink) (fetch : FetchResult) :
    MarketplaceLink × Bool :=
  match fetch with
  | .success page => (link, check_for_results page link.marketplace)
  | .timeout => (link, true)
  | .httpStatusError _ => (link, true)
  | .connectionError => (link, true)
  | .otherError => (link, true)

/-- What `asyncio.gather(..., return_exceptions=True)` hands back for one
link's task: either the task ran `validate_single_link` to completion on
some fetch outcome, or the task itself surfaced as an exception object
(e.g. a cancellation, which `validate_single_link` does not catch). -/
inductive LinkOutcome where
  | fetched (r : FetchResult)
  | taskFailed

/-- The per-task result as it appears in the `results` list of
`validate_marketplace_links`: `none` stands for an exception object
(skipped by the `isinstance(result, BaseException)` arm), `some` for the
`(link, has_results)` tuple. -/
def runTask (link : MarketplaceLink) (outcome : LinkOutcome) :
    Option (MarketplaceLink × Bool) :=
  match outcome with
  | .taskFailed => none
  | .fetched r => some (validate_single_link link r)

/-- `validate_marketplace_links` of `src/services/link_validator.py`, with
the network environment passed explicitly as the outcome each link's task
produces. Empty input returns immediately; otherwise the surviving links
are collected in task order and, if none survive, the first input link is
returned alone. -/
def validate_marketplace_links (links : List MarketplaceLink)
    (env : MarketplaceLink → LinkOutcome) : List MarketplaceLink :=
  match links with
  | [] => []
  | first :: _ =>
    let results := links.map fun link => runTask link (env link)
    let valid_links := results.filterMap fun result =>
      match result with
      | none => none
      | some (link, has_results) => if has_results then some link else none
    if valid_links = [] then [first] else valid_links

/-- Modelled from the spec: value of one hexadecimal digit, the reading
side of a `%XY` escape. The repository only encodes; the decoder needed to
state the round-trip property is not part of `src/`. -/
def hexVal (c : Char) : Option Nat :=
  let n := c.toNat
  if 48 ≤ n ∧ n ≤ 57 then some (n - 48)
  else if 65 ≤ n ∧ n ≤ 70 then some (n - 55)
  else if 97 ≤ n ∧ n ≤ 102 then some (n - 87)
  else none

/-- Modelled from the spec: percent-decoding of a character sequence back
to a byte sequence — each `%XY` escape yields the byte `XY`, any other
character stands for its own code — the inverse direction of
"percent-encoding is reversible". -/
def percentDecodeBytes : List Char → Option (List Nat)
  | [] => some []
  | c :: rest =>
    if c = '%' then
      match rest with
      | h1 :: h2 :: rest2 =>
        match hexVal h1, hexVal h2 with
        | some hi, some lo => (percentDecodeBytes rest2).map fun bs => (hi * 16 + lo) :: bs
        | _, _ => none
      | _ => none
    else
      (percentDecodeBytes rest).map fun bs => c.toNat :: bs

/-- Modelled from the spec: value carried by a UTF-8 continuation byte
(high bits 10), the reading side of the multi-byte encoding. -/
def contVal (b : Nat) : Option Nat :=
  if 128 ≤ b ∧ b < 192 then some (b - 128) else none

/-- Modelled from the spec: one step of UTF-8 decoding — read one code
point from the front of the byte sequence and return it with the unread
remainder, or fail on a malformed prefix. -/
def utf8DecodeStep : List Nat → Option (Nat × List Nat)
  | [] => none
  | b :: rest =>
    if b < 128 then some (b, rest)
    else if b < 192 then none
    else if b < 224 then
      match rest with
      | b2 :: rest2 => (contVal b2).map fun v2 => ((b - 192) * 64 + v2, rest2)
      | [] => none
    else if b < 240 then
      match rest with
      | b2 :: b3 :: rest3 =>
        match contVal b2, contVal b3 with
        | some v2, some v3 => some ((b - 224) * 4096 + v2 * 64 + v3, rest3)
        | _, _ => none
      | _ => none
    else
      match rest with
      | b2 :: b3 :: b4 :: rest4 =>
        match contVal b2, contVal b3, contVal b4 with
        | some v2, some v3, some v4 =>
          some ((b - 240) * 262144 + v2 * 4096 + v3 * 64 + v4, rest4)
        | _, _, _ => none
      | _ => none

/-- Modelled from the spec: fuelled UTF-8 decoding loop; every step
consumes at least one byte, so fuel equal to the byte count suffices. -/
def utf8DecodeAux : Nat → List Nat → Option (List Char)
  | _, [] => some []
  | 0, _ :: _ => none
  | fuel + 1, b :: rest =>
    match utf8DecodeStep (b :: rest) with
    | none => none
    | some (n, rest2) => (utf8DecodeAux fuel rest2).map fun cs => Char.ofNat n :: cs

/-- Modelled from the spec: UTF-8 decoding of a byte sequence back to text,
the inverse of the multi-byte encoding used when building URLs. -/
def utf8Decode (bs : List Nat) : Option (List Char) :=
  utf8DecodeAux bs.length bs

/-- Modelled from the spec: full percent-decoding of an encoded query —
percent-unescape to bytes, then UTF-8 decode to text. -/
def percentDecode (s : String) : Option String :=
  match percentDecodeBytes s.data with
  | none => none
  | some bs =>
    match utf8Decode bs with
    | none => none
    | some cs => some (String.mk cs)

/-- The survivor a link contributes to the filtered list of
validate_marketplace_links: itself when its task completed with a positive
classification, nothing otherwise. -/
def surviving (env : MarketplaceLink → LinkOutcome) (link : MarketplaceLink) :
    Option MarketplaceLink :=
  match runTask link (env link) with
  | none => none
  | some (l, has_results) => if has_results then some l else none

/-- The unreserved characters at the text level: exactly those whose code
point is a safe byte. -/
def isUnreservedChar (c : Char) : Bool :=
  isSafeByte c.toNat

/-- Sample page used to instantiate the heuristic theorem: visible text
with a French no-results phrase and three structurally matching elements. -/
def abebooksNoResultsPage : Page :=
  { text := "Désolé, aucun résultat pour votre recherche.", select_count := fun _ => 3 }

/-- Sample page whose text is free of every no-results phrase. -/
def neutralResultsPage : Page :=
  { text := "Voici quelques objets.", select_count := fun _ => 0 }

/-- Page exhibiting the failure of the universal reading of C6: English
"no results found" text on a vinted page that also has a matching result
element. -/
def vintedEnglishNoResultsPage : Page :=
  { text := "No results found", select_count := fun _ => 1 }

/-- Page with the English phrase in mixed case plus matching elements, for
the abebooks instance. -/
def abebooksEnglishNoResultsPage : Page :=
  { text := "Sorry — NO Results Found for this search.", select_count := fun _ => 7 }

/-- Sample classification with an unknown-to-the-table category, used to
instantiate the routing theorem. -/
def routingSampleAnalysis : VisionAnalysisResult :=
  { object_type := "electronics", search_queries := [{ query := "lampe ancienne" }] }

/-- Sample classification with a routed category and two phrases, used to
instantiate the link-building theorem. -/
def buildSampleAnalysis : VisionAnalysisResult :=
  { object_type := "book",
    search_queries := [{ query := "livre policier" }, { query := "roman thriller" }] }

/-- C3: the category→marketplace lookup is total: "book" routes to
abebooks, "clothing" to vinted, every other category to the default
(leboncoin), and every link built from one classification carries the
routed marketplace id. -/
theorem marketplace_routing_total :
    get_marketplace_for_type "book" =
      ("abebooks", "https://www.abebooks.fr/servlet/SearchResults?kn={query}&sts=t") ∧
    get_marketplace_for_type "clothing" =
      ("vinted", "https://www.vinted.fr/catalog?search_text={query}") ∧
    (∀ t : String, t ≠ "book" → t ≠ "clothing" →
      get_marketplace_for_type t = DEFAULT_MARKETPLACE) ∧
    (∀ (analysis : VisionAnalysisResult) (max_links : Nat),
      ∀ l ∈ build_marketplace_links analysis max_links,
        l.marketplace = (get_marketplace_for_type analysis.object_type).1) := by
  refine ⟨rfl, rfl, ?_, ?_⟩
  · intro t h1 h2
    have e1 : (t == "book") = false := beq_eq_false_iff_ne.mpr h1
    have e2 : (t == "clothing") = false := beq_eq_false_iff_ne.mpr h2
    simp [get_marketplace_for_type, MARKETPLACE_URLS, List.lookup, e1, e2]
  · intro analysis max_links l hl
    simp only [build_marketplace_links, List.mem_map] at hl
    obtain ⟨sq, _, rfl⟩ := hl
    rfl

/-- Closed instance of the routing theorem at an unrouted category and a
concrete built link. -/
theorem marketplace_routing_total_witness :
    get_marketplace_for_type "electronics" = DEFAULT_MARKETPLACE ∧
    (build_marketplace_link "leboncoin" "https://www.leboncoin.fr/recherche?text={query}"
        "lampe ancienne").marketplace =
      (get_marketplace_for_type routingSampleAnalysis.object_type).1 :=
  ⟨marketplace_routing_total.2.2.1 "electronics" (by decide) (by decide),
   marketplace_routing_total.2.2.2 routingSampleAnalysis 5 _ (by decide)⟩

/-- C4: for a non-empty phrase list and a positive cap, link building is
total and deterministic: the result is non-empty, its length is
min(phrase count, max_links), and the i-th link is built from the i-th
phrase. -/
theorem build_links_length_order (analysis : VisionAnalysisResult) (max_links : Nat)
    (hq : analysis.search_queries ≠ []) (hm : 1 ≤ max_links) :
    build_marketplace_links analysis max_links ≠ [] ∧
    (build_marketplace_links analysis max_links).length =
      min analysis.search_queries.length max_links ∧
    ∀ i : Nat, i < max_links →
      (build_marketplace_links analysis max_links)[i]? =
        analysis.search_queries[i]?.map fun sq =>
          build_marketplace_link (get_marketplace_for_type analysis.object_type).1
            (get_marketplace_for_type analysis.object_type).2 sq.query := by
  have hlen : (build_marketplace_links analysis max_links).length =
      min analysis.search_queries.length max_links := by
    simp [build_marketplace_links, Nat.min_comm]
  refine ⟨?_, hlen, ?_⟩
  · intro hnil
    rw [hnil] at hlen
    have hpos : 0 < analysis.search_queries.length := List.length_pos.mpr hq
    simp at hlen
    omega
  · intro i hi
    simp [build_marketplace_links, List.getElem?_take, hi]

/-- Closed instance of the link-building theorem on a two-phrase book
classification with the default cap. -/
theorem build_links_length_order_witness :
    build_marketplace_links buildSampleAnalysis 5 ≠ [] ∧
    (build_marketplace_links buildSampleAnalysis 5).length =
      min buildSampleAnalysis.search_queries.length 5 ∧
    (build_marketplace_links buildSampleAnalysis 5)[0]? =
      buildSampleAnalysis.search_queries[0]?.map (fun sq =>
        build_marketplace_link (get_marketplace_for_type buildSampleAnalysis.object_type).1
          (get_marketplace_for_type buildSampleAnalysis.object_type).2 sq.query) :=
  ⟨(build_links_length_order buildSampleAnalysis 5 (by decide) (by decide)).1,
   (build_links_length_order buildSampleAnalysis 5 (by decide) (by decide)).2.1,
   (build_links_length_order buildSampleAnalysis 5 (by decide) (by decide)).2.2 0 (by decide)⟩

/-- C10: with max_links = 0 the builder returns the empty list for every
classification — the non-empty guarantee needs the unenforced
precondition max_links ≥ 1. -/
theorem build_links_max_links_zero (analysis : VisionAnalysisResult) :
    build_marketplace_links analysis 0 = [] := by
  simp [build_marketplace_links]

theorem validate_single_link_fst (link : MarketplaceLink) (fetch : FetchResult) :
    (validate_single_link link fetch).1 = link := by
  cases fetch <;> rfl

theorem surviving_eq_none_or_self (env : MarketplaceLink → LinkOutcome)
    (link : MarketplaceLink) :
    surviving env link = none ∨ surviving env link = some link := by
  unfold surviving runTask
  cases env link with
  | taskFailed => exact Or.inl rfl
  | fetched r =>
    have hfst := validate_single_link_fst link r
    rcases hp : validate_single_link link r with ⟨l, b⟩
    rw [hp] at hfst
    cases hfst
    simp only [hp]
    cases b
    · exact Or.inl rfl
    · exact Or.inr rfl

theorem validate_cons (first : MarketplaceLink) (rest : List MarketplaceLink)
    (env : MarketplaceLink → LinkOutcome) :
    validate_marketplace_links (first :: rest) env =
      if (first :: rest).filterMap (surviving env) = [] then [first]
      else (first :: rest).filterMap (surviving env) := by
  simp only [validate_marketplace_links, List.filterMap_map]
  rfl

theorem filterMap_surviving_sublist (env : MarketplaceLink → LinkOutcome) :
    ∀ links : List MarketplaceLink,
      List.Sublist (links.filterMap (surviving env)) links := by
  intro links
  induction links with
  | nil => exact List.Sublist.refl []
  | cons a as ih =>
    rcases surviving_eq_none_or_self env a with h | h <;>
      simp only [List.filterMap_cons, h]
    · exact List.Sublist.cons a ih
    · exact List.Sublist.cons₂ a ih

theorem filterMap_surviving_all_some (env : MarketplaceLink → LinkOutcome) :
    ∀ links : List MarketplaceLink,
      (∀ l ∈ links, surviving env l = some l) →
      links.filterMap (surviving env) = links := by
  intro links h
  induction links with
  | nil => rfl
  | cons a as ih =>
    simp only [List.filterMap_cons, h a (List.mem_cons_self a as)]
    exact congrArg (a :: ·) (ih fun l hl => h l (List.mem_cons_of_mem a hl))

/-- C1: validation returns the empty list exactly on empty input; when the
input is non-empty and every per-link task either fails or classifies its
link "no results", the result is exactly the first input link alone. -/
theorem validate_empty_iff_and_fallback (links : List MarketplaceLink)
    (env : MarketplaceLink → LinkOutcome) :
    (validate_marketplace_links links env = [] ↔ links = []) ∧
    ∀ first rest, links = first :: rest →
      (∀ l ∈ links, runTask l (env l) = none ∨ runTask l (env l) = some (l, false)) →
      validate_marketplace_links links env = [first] := by
  constructor
  · constructor
    · intro hempty
      by_contra hne
      obtain ⟨first, rest, rfl⟩ := List.exists_cons_of_ne_nil hne
      rw [validate_cons] at hempty
      by_cases hvalid : (first :: rest).filterMap (surviving env) = []
      · rw [if_pos hvalid] at hempty
        exact List.cons_ne_nil first [] hempty
      · rw [if_neg hvalid] at hempty
        exact hvalid hempty
    · rintro rfl
      rfl
  · rintro first rest rfl hall
    rw [validate_cons, if_pos]
    rw [List.filterMap_eq_nil_iff]
    intro l hl
    unfold surviving
    rcases hall l hl with h | h <;> rw [h]
    rfl

/-- Closed instance of the validation fallback: one link whose task fails
is returned unchanged, and the empty input maps to the empty output. -/
theorem validate_empty_iff_and_fallback_witness :
    validate_marketplace_links []
      (fun _ => LinkOutcome.taskFailed) = [] ∧
    validate_marketplace_links
      [build_marketplace_link "leboncoin"
        "https://www.leboncoin.fr/recherche?text={query}" "lampe ancienne"]
      (fun _ => LinkOutcome.taskFailed) =
      [build_marketplace_link "leboncoin"
        "https://www.leboncoin.fr/recherche?text={query}" "lampe ancienne"] :=
  ⟨(validate_empty_iff_and_fallback [] (fun _ => LinkOutcome.taskFailed)).1.mpr rfl,
   (validate_empty_iff_and_fallback _ (fun _ => LinkOutcome.taskFailed)).2 _ [] rfl
     (fun _ _ => Or.inl rfl)⟩

/-- C2: every fetch failure (timeout, non-2xx status, connection error, or
any other exception) is absorbed at the per-link boundary as "has
results", and such a link survives the filtering of
validate_marketplace_links. -/
theorem fetch_failure_fail_open (link : MarketplaceLink) (fetch : FetchResult)
    (hfail : ∀ page, fetch ≠ FetchResult.success page) :
    validate_single_link link fetch = (link, true) ∧
    ∀ (links : List MarketplaceLink) (env : MarketplaceLink → LinkOutcome),
      link ∈ links → env link = LinkOutcome.fetched fetch →
      link ∈ validate_marketplace_links links env := by
  have hopen : validate_single_link link fetch = (link, true) := by
    cases fetch with
    | success page => exact absurd rfl (hfail page)
    | timeout => rfl
    | httpStatusError status => rfl
    | connectionError => rfl
    | otherError => rfl
  refine ⟨hopen, ?_⟩
  intro links env hmem henv
  have hsurv : surviving env link = some link := by
    unfold surviving runTask
    rw [henv]
    simp [hopen]
  obtain ⟨first, rest, rfl⟩ :=
    List.exists_cons_of_ne_nil (List.ne_nil_of_mem hmem)
  rw [validate_cons]
  have hvmem : link ∈ (first :: rest).filterMap (surviving env) :=
    List.mem_filterMap.mpr ⟨link, hmem, hsurv⟩
  rw [if_neg (List.ne_nil_of_mem hvmem)]
  exact hvmem

/-- Closed instance of the fail-open theorem at a timeout on a concrete
link. -/
theorem fetch_failure_fail_open_witness :
    validate_single_link
      (build_marketplace_link "vinted" "https://www.vinted.fr/catalog?search_text={query}"
        "robe rouge")
      FetchResult.timeout =
      (build_marketplace_link "vinted" "https://www.vinted.fr/catalog?search_text={query}"
        "robe rouge", true) ∧
    build_marketplace_link "vinted" "https://www.vinted.fr/catalog?search_text={query}"
        "robe rouge" ∈
      validate_marketplace_links
        [build_marketplace_link "vinted" "https://www.vinted.fr/catalog?search_text={query}"
          "robe rouge"]
        (fun _ => LinkOutcome.fetched FetchResult.timeout) :=
  ⟨(fetch_failure_fail_open _ FetchResult.timeout (fun _ h => FetchResult.noConfusion h)).1,
   (fetch_failure_fail_open _ FetchResult.timeout (fun _ h => FetchResult.noConfusion h)).2
     _ _ (List.mem_singleton.mpr rfl) rfl⟩

/-- C9: the validator's output is a subsequence of its input (each output
link is an input link in original relative order), and when every link is
classified "has results" the output equals the input. -/
theorem validate_preserves_order (links : List MarketplaceLink)
    (env : MarketplaceLink → LinkOutcome) :
    List.Sublist (validate_marketplace_links links env) links ∧
    ((∀ l ∈ links, runTask l (env l) = some (l, true)) →
      validate_marketplace_links links env = links) := by
  constructor
  · cases links with
    | nil => exact List.Sublist.refl []
    | cons first rest =>
      rw [validate_cons]
      by_cases hvalid : (first :: rest).filterMap (surviving env) = []
      · rw [if_pos hvalid]
        exact List.Sublist.cons₂ first (List.nil_sublist rest)
      · rw [if_neg hvalid]
        exact filterMap_surviving_sublist env (first :: rest)
  · intro hall
    have hsome : ∀ l ∈ links, surviving env l = some l := by
      intro l hl
      unfold surviving
      rw [hall l hl]
      rfl
    cases links with
    | nil => rfl
    | cons first rest =>
      rw [validate_cons, filterMap_surviving_all_some env (first :: rest) hsome,
        if_neg (List.cons_ne_nil first rest)]

/-- Closed instance of the order-preservation theorem: two links both
classified "has results" come back unchanged and as a subsequence. -/
theorem validate_preserves_order_witness :
    List.Sublist
      (validate_marketplace_links
        [build_marketplace_link "leboncoin"
          "https://www.leboncoin.fr/recherche?text={query}" "chaise",
         build_marketplace_link "leboncoin"
          "https://www.leboncoin.fr/recherche?text={query}" "table"]
        (fun _ => LinkOutcome.fetched (FetchResult.success
          { text := "des annonces", select_count := fun _ => 2 })))
      [build_marketplace_link "leboncoin"
        "https://www.leboncoin.fr/recherche?text={query}" "chaise",
       build_marketplace_link "leboncoin"
        "https://www.leboncoin.fr/recherche?text={query}" "table"] ∧
    validate_marketplace_links
      [build_marketplace_link "leboncoin"
        "https://www.leboncoin.fr/recherche?text={query}" "chaise",
       build_marketplace_link "leboncoin"
        "https://www.leboncoin.fr/recherche?text={query}" "table"]
      (fun _ => LinkOutcome.fetched (FetchResult.success
        { text := "des annonces", select_count := fun _ => 2 })) =
      [build_marketplace_link "leboncoin"
        "https://www.leboncoin.fr/recherche?text={query}" "chaise",
       build_marketplace_link "leboncoin"
        "https://www.leboncoin.fr/recherche?text={query}" "table"] :=
  ⟨(validate_preserves_order _ _).1,
   (validate_preserves_order _ _).2 (by decide)⟩

/-- C5: the heuristic classifies a page "no results" exactly when the
lower-cased visible text contains one of the marketplace's no-results
phrases — this check takes precedence over the structural one; whenever no
negative phrase occurs the page is classified "has results", whether or
not the result-item selector matches, and an unrecognized marketplace
always classifies as "has results". -/
theorem check_for_results_spec (page : Page) (marketplace : String) :
    (check_for_results page marketplace = false ↔
      ∃ phrase ∈ (selectorsFor marketplace).no_results_text,
        containsSubstr (pyLower page.text) (pyLower phrase) = true) ∧
    ((∀ phrase ∈ (selectorsFor marketplace).no_results_text,
        containsSubstr (pyLower page.text) (pyLower phrase) = false) →
      check_for_results page marketplace = true) ∧
    (MARKETPLACE_SELECTORS.lookup marketplace = none →
      check_for_results page marketplace = true) := by
  have hchk : check_for_results page marketplace =
      if (selectorsFor marketplace).no_results_text.any
          (fun phrase => containsSubstr (pyLower page.text) (pyLower phrase)) then
        false
      else
        if (selectorsFor marketplace).results_selector ≠ "" ∧
            page.select_count (selectorsFor marketplace).results_selector > 0 then
          true
        else
          true := rfl
  by_cases hneg : (selectorsFor marketplace).no_results_text.any
      (fun phrase => containsSubstr (pyLower page.text) (pyLower phrase)) = true
  · rw [hchk, if_pos hneg]
    refine ⟨⟨fun _ => List.any_eq_true.mp hneg, fun _ => rfl⟩, ?_, ?_⟩
    · intro hnone
      obtain ⟨phrase, hmem, hsub⟩ := List.any_eq_true.mp hneg
      rw [hnone phrase hmem] at hsub
      cases hsub
    · intro hlookup
      obtain ⟨phrase, hmem, _⟩ := List.any_eq_true.mp hneg
      rw [show selectorsFor marketplace = emptySelectors by
        rw [selectorsFor, hlookup]; rfl] at hmem
      cases hmem
  · have htrue : check_for_results page marketplace = true := by
      rw [hchk, if_neg hneg, ite_self]
    refine ⟨?_, fun _ => htrue, fun _ => htrue⟩
    rw [htrue]
    constructor
    · intro h
      exact absurd h (by decide)
    · rintro ⟨phrase, hmem, hsub⟩
      exact absurd (List.any_eq_true.mpr ⟨phrase, hmem, hsub⟩) hneg

/-- Closed instances of the heuristic theorem: a phrase hit forces "no
results" despite matching elements; a clean page and an unknown
marketplace classify as "has results". -/
theorem check_for_results_spec_witness :
    check_for_results abebooksNoResultsPage "abebooks" = false ∧
    check_for_results neutralResultsPage "leboncoin" = true ∧
    check_for_results neutralResultsPage "amazon" = true :=
  ⟨(check_for_results_spec abebooksNoResultsPage "abebooks").1.mpr
      ⟨"aucun résultat", by decide, by decide⟩,
   (check_for_results_spec neutralResultsPage "leboncoin").2.1 (by decide),
   (check_for_results_spec neutralResultsPage "amazon").2.2 (by decide)⟩

/-- C6 counterexample: the claim quantifies over every marketplace, but
only abebooks lists the English phrase; a vinted page whose visible text
is exactly "No results found" is classified "has results". -/
theorem no_results_found_universal_cex :
    containsSubstr (pyLower vintedEnglishNoResultsPage.text) "no results found" = true ∧
    check_for_results vintedEnglishNoResultsPage "vinted" = true := by
  constructor <;> decide

/-- C6 amended: for the abebooks marketplace — the one whose no-results
phrase table contains the English phrase — any page whose visible text
contains "no results found" in any letter case is classified "no
results", regardless of structurally matching elements. -/
theorem abebooks_no_results_found_precedence (page : Page)
    (h : containsSubstr (pyLower page.text) "no results found" = true) :
    check_for_results page "abebooks" = false := by
  have hlow : pyLower "no results found" = "no results found" := by decide
  have hany : (selectorsFor "abebooks").no_results_text.any
      (fun phrase => containsSubstr (pyLower page.text) (pyLower phrase)) = true := by
    refine List.any_eq_true.mpr ⟨"no results found", by decide, ?_⟩
    rw [hlow]
    exact h
  show (if (selectorsFor "abebooks").no_results_text.any
      (fun phrase => containsSubstr (pyLower page.text) (pyLower phrase)) then false
    else _) = false
  rw [if_pos hany]

/-- Closed instance of the amended C6 theorem on a mixed-case page with
seven matching result elements. -/
theorem abebooks_no_results_found_precedence_witness :
    check_for_results abebooksEnglishNoResultsPage "abebooks" = false :=
  abebooks_no_results_found_precedence abebooksEnglishNoResultsPage (by decide)

theorem char_toNat_lt (c : Char) : c.toNat < 1114112 := by
  rcases c.valid with h | h
  · exact Nat.lt_trans h (by decide)
  · exact h.2

theorem char_toNat_ofNat (n : Nat) (h : n < 55296) : (Char.ofNat n).toNat = n := by
  unfold Char.ofNat
  rw [dif_pos (Or.inl h)]
  rfl

theorem utf8Bytes_low (c : Char) (h : c.toNat < 128) : utf8Bytes c = [c.toNat] := by
  simp only [utf8Bytes]
  rw [if_pos h]

theorem utf8Bytes_two (c : Char) (h1 : ¬c.toNat < 128) (h2 : c.toNat < 2048) :
    utf8Bytes c = [192 + c.toNat / 64, 128 + c.toNat % 64] := by
  simp only [utf8Bytes]
  rw [if_neg h1, if_pos h2]

theorem utf8Bytes_three (c : Char) (h1 : ¬c.toNat < 128) (h2 : ¬c.toNat < 2048)
    (h3 : c.toNat < 65536) :
    utf8Bytes c = [224 + c.toNat / 4096, 128 + (c.toNat / 64) % 64, 128 + c.toNat % 64] := by
  simp only [utf8Bytes]
  rw [if_neg h1, if_neg h2, if_pos h3]

theorem utf8Bytes_four (c : Char) (h1 : ¬c.toNat < 128) (h2 : ¬c.toNat < 2048)
    (h3 : ¬c.toNat < 65536) :
    utf8Bytes c = [240 + c.toNat / 262144, 128 + (c.toNat / 4096) % 64,
      128 + (c.toNat / 64) % 64, 128 + c.toNat % 64] := by
  simp only [utf8Bytes]
  rw [if_neg h1, if_neg h2, if_neg h3]

theorem utf8Bytes_lt_256 (c : Char) : ∀ b ∈ utf8Bytes c, b < 256 := by
  have hvalid := char_toNat_lt c
  by_cases h1 : c.toNat < 128
  · rw [utf8Bytes_low c h1]
    intro b hb
    rw [List.mem_singleton.mp hb]
    omega
  · by_cases h2 : c.toNat < 2048
    · rw [utf8Bytes_two c h1 h2]
      intro b hb
      rcases hb with _ | ⟨_, hb⟩
      · omega
      · rw [List.mem_singleton.mp hb]
        omega
    · by_cases h3 : c.toNat < 65536
      · rw [utf8Bytes_three c h1 h2 h3]
        intro b hb
        simp only [List.mem_cons, List.not_mem_nil, or_false] at hb
        rcases hb with rfl | rfl | rfl <;> omega
      · rw [utf8Bytes_four c h1 h2 h3]
        intro b hb
        simp only [List.mem_cons, List.not_mem_nil, or_false] at hb
        rcases hb with rfl | rfl | rfl | rfl <;> omega

theorem utf8Bytes_not_safe (c : Char) (h : isUnreservedChar c = false) :
    ∀ b ∈ utf8Bytes c, isSafeByte b = false := by
  by_cases h1 : c.toNat < 128
  · rw [utf8Bytes_low c h1]
    intro b hb
    rw [List.mem_singleton.mp hb]
    exact h
  · have hge : 128 ≤ c.toNat := Nat.not_lt.mp h1
    have hunsafe : ∀ b : Nat, 128 ≤ b → isSafeByte b = false := by
      intro b hb
      simp only [isSafeByte, decide_eq_false_iff_not]
      omega
    by_cases h2 : c.toNat < 2048
    · rw [utf8Bytes_two c h1 h2]
      intro b hb
      simp only [List.mem_cons, List.not_mem_nil, or_false] at hb
      rcases hb with rfl | rfl <;> exact hunsafe _ (by omega)
    · by_cases h3 : c.toNat < 65536
      · rw [utf8Bytes_three c h1 h2 h3]
        intro b hb
        simp only [List.mem_cons, List.not_mem_nil, or_false] at hb
        rcases hb with rfl | rfl | rfl <;> exact hunsafe _ (by omega)
      · rw [utf8Bytes_four c h1 h2 h3]
        intro b hb
        simp only [List.mem_cons, List.not_mem_nil, or_false] at hb
        rcases hb with rfl | rfl | rfl | rfl <;> exact hunsafe _ (by omega)

theorem flatMap_quoteByte_unsafe (bs : List Nat)
    (h : ∀ b ∈ bs, isSafeByte b = false) :
    bs.flatMap quoteByte =
      bs.flatMap fun b => ['%', hexDigit (b / 16), hexDigit (b % 16)] := by
  induction bs with
  | nil => rfl
  | cons b rest ih =>
    rw [List.flatMap_cons, List.flatMap_cons,
      show quoteByte b = ['%', hexDigit (b / 16), hexDigit (b % 16)] from by
        rw [quoteByte, if_neg]
        rw [h b (List.mem_cons_self b rest)]
        exact Bool.false_ne_true,
      ih fun x hx => h x (List.mem_cons_of_mem b hx)]

/-- C7: the encoder percent-encodes exactly the characters outside the
unreserved set, processes a string character by character, turns a space
into %20, and encodes multi-byte characters per their UTF-8 byte sequence
(é → %C3%A9, à → %C3%A0, both visible in a built URL). -/
theorem encode_query_unreserved_utf8 :
    (∀ q : String, (encode_query q).data =
      q.data.flatMap fun c => (encode_query (String.mk [c])).data) ∧
    (∀ c : Char, isUnreservedChar c = true →
      encode_query (String.mk [c]) = String.mk [c]) ∧
    (∀ c : Char, isUnreservedChar c = false →
      (encode_query (String.mk [c])).data =
        (utf8Bytes c).flatMap fun b => ['%', hexDigit (b / 16), hexDigit (b % 16)]) ∧
    encode_query " " = "%20" ∧
    encode_query "é" = "%C3%A9" ∧
    encode_query "à" = "%C3%A0" ∧
    containsSubstr (build_marketplace_link DEFAULT_MARKETPLACE.1 DEFAULT_MARKETPLACE.2
      "clé à molette").url "%C3%A9" = true ∧
    containsSubstr (build_marketplace_link DEFAULT_MARKETPLACE.1 DEFAULT_MARKETPLACE.2
      "clé à molette").url "%C3%A0" = true := by
  refine ⟨?_, ?_, ?_, by decide, by decide, by decide, by decide, by decide⟩
  · intro q
    show (q.data.flatMap utf8Bytes).flatMap quoteByte =
      q.data.flatMap fun c => ([c].flatMap utf8Bytes).flatMap quoteByte
    rw [List.flatMap_assoc]
    apply List.flatMap_congr  -- hmm name to verify
    intro c _
    rw [List.flatMap_cons, List.flatMap_nil, List.append_nil]
  · intro c hc
    have hle : c.toNat ≤ 126 := by
      have := hc
      simp only [isUnreservedChar, isSafeByte, decide_eq_true_eq] at this
      omega
    show String.mk (([c].flatMap utf8Bytes).flatMap quoteByte) = String.mk [c]
    rw [List.flatMap_cons, List.flatMap_nil, List.append_nil,
      utf8Bytes_low c (by omega), List.flatMap_cons, List.flatMap_nil, List.append_nil,
      quoteByte, if_pos (show isSafeByte c.toNat = true from hc), Char.ofNat_toNat]
  · intro c hc
    show ([c].flatMap utf8Bytes).flatMap quoteByte = _
    rw [List.flatMap_cons, List.flatMap_nil, List.append_nil]
    exact flatMap_quoteByte_unsafe (utf8Bytes c) (utf8Bytes_not_safe c hc)

/-- Closed instance of the encoder theorem: the letter a is kept verbatim,
the accented é is fully percent-encoded. -/
theorem encode_query_unreserved_utf8_witness :
    encode_query (String.mk ['a']) = String.mk ['a'] ∧
    (encode_query (String.mk ['é'])).data =
      (utf8Bytes 'é').flatMap fun b => ['%', hexDigit (b / 16), hexDigit (b % 16)] :=
  ⟨encode_query_unreserved_utf8.2.1 'a' (by decide),
   encode_query_unreserved_utf8.2.2.1 'é' (by decide)⟩

theorem hexVal_hexDigit : ∀ n : Nat, n < 16 → hexVal (hexDigit n) = some n := by
  decide

theorem percentDecodeBytes_cons_plain (c : Char) (rest : List Char) (h : ¬c = '%') :
    percentDecodeBytes (c :: rest) =
      (percentDecodeBytes rest).map fun bs => c.toNat :: bs := by
  conv_lhs => rw [percentDecodeBytes.eq_def]
  simp only [h, ite_false]

theorem percentDecodeBytes_cons_escape (h1 h2 : Char) (rest : List Char) (a b : Nat)
    (ha : hexVal h1 = some a) (hb : hexVal h2 = some b) :
    percentDecodeBytes ('%' :: h1 :: h2 :: rest) =
      (percentDecodeBytes rest).map fun bs => (a * 16 + b) :: bs := by
  conv_lhs => rw [percentDecodeBytes.eq_def]
  simp only [ha, hb, ite_true, if_pos rfl]

theorem percentDecodeBytes_quote (bs : List Nat) (hlt : ∀ b ∈ bs, b < 256) :
    percentDecodeBytes (bs.flatMap quoteByte) = some bs := by
  induction bs with
  | nil => rfl
  | cons b rest ih =>
    have hb : b < 256 := hlt b (List.mem_cons_self b rest)
    have hrest := ih fun x hx => hlt x (List.mem_cons_of_mem b hx)
    rw [List.flatMap_cons]
    by_cases hsafe : isSafeByte b = true
    · have hble : b ≤ 126 := by
        have := hsafe
        simp only [isSafeByte, decide_eq_true_eq] at this
        omega
      have htn : (Char.ofNat b).toNat = b := char_toNat_ofNat b (by omega)
      have hnp : ¬(Char.ofNat b = '%') := by
        intro he
        have h37 : b = 37 := by
          rw [← htn, he]
          rfl
        rw [h37] at hsafe
        exact absurd hsafe (by decide)
      rw [show quoteByte b = [Char.ofNat b] from by rw [quoteByte, if_pos hsafe],
        List.singleton_append, percentDecodeBytes_cons_plain _ _ hnp, hrest, htn]
      rfl
    · rw [show quoteByte b = ['%', hexDigit (b / 16), hexDigit (b % 16)] from by
        rw [quoteByte, if_neg hsafe],
        show ['%', hexDigit (b / 16), hexDigit (b % 16)] ++ rest.flatMap quoteByte =
          '%' :: hexDigit (b / 16) :: hexDigit (b % 16) :: rest.flatMap quoteByte from rfl,
        percentDecodeBytes_cons_escape _ _ _ _ _ (hexVal_hexDigit (b / 16) (by omega))
          (hexVal_hexDigit (b % 16) (by omega)),
        hrest, show b / 16 * 16 + b % 16 = b from by omega]
      rfl

theorem utf8DecodeStep_low (b : Nat) (rest : List Nat) (h : b < 128) :
    utf8DecodeStep (b :: rest) = some (b, rest) := by
  simp only [utf8DecodeStep]
  rw [if_pos h]

theorem utf8DecodeStep_two (b b2 : Nat) (rest : List Nat)
    (h1 : ¬b < 128) (h2 : ¬b < 192) (h3 : b < 224) (h4 : 128 ≤ b2) (h5 : b2 < 192) :
    utf8DecodeStep (b :: b2 :: rest) = some ((b - 192) * 64 + (b2 - 128), rest) := by
  simp only [utf8DecodeStep, contVal]
  rw [if_neg h1, if_neg h2, if_pos h3, if_pos ⟨h4, h5⟩]
  rfl

theorem utf8DecodeStep_three (b b2 b3 : Nat) (rest : List Nat)
    (h1 : ¬b < 128) (h2 : ¬b < 192) (h3 : ¬b < 224) (h4 : b < 240)
    (h5 : 128 ≤ b2) (h6 : b2 < 192) (h7 : 128 ≤ b3) (h8 : b3 < 192) :
    utf8DecodeStep (b :: b2 :: b3 :: rest) =
      some ((b - 224) * 4096 + (b2 - 128) * 64 + (b3 - 128), rest) := by
  simp only [utf8DecodeStep, contVal]
  rw [if_neg h1, if_neg h2, if_neg h3, if_pos h4, if_pos ⟨h5, h6⟩, if_pos ⟨h7, h8⟩]

theorem utf8DecodeStep_four (b b2 b3 b4 : Nat) (rest : List Nat)
    (h1 : ¬b < 128) (h2 : ¬b < 192) (h3 : ¬b < 224) (h4 : ¬b < 240)
    (h5 : 128 ≤ b2) (h6 : b2 < 192) (h7 : 128 ≤ b3) (h8 : b3 < 192)
    (h9 : 128 ≤ b4) (h10 : b4 < 192) :
    utf8DecodeStep (b :: b2 :: b3 :: b4 :: rest) =
      some ((b - 240) * 262144 + (b2 - 128) * 4096 + (b3 - 128) * 64 + (b4 - 128), rest) := by
  simp only [utf8DecodeStep, contVal]
  rw [if_neg h1, if_neg h2, if_neg h3, if_neg h4, if_pos ⟨h5, h6⟩, if_pos ⟨h7, h8⟩,
    if_pos ⟨h9, h10⟩]

theorem utf8DecodeStep_bytes (c : Char) (bs : List Nat) :
    utf8DecodeStep (utf8Bytes c ++ bs) = some (c.toNat, bs) := by
  have hvalid := char_toNat_lt c
  by_cases h1 : c.toNat < 128
  · rw [utf8Bytes_low c h1, List.singleton_append, utf8DecodeStep_low _ _ h1]
  · by_cases h2 : c.toNat < 2048
    · rw [utf8Bytes_two c h1 h2,
        show [192 + c.toNat / 64, 128 + c.toNat % 64] ++ bs =
          (192 + c.toNat / 64) :: (128 + c.toNat % 64) :: bs from rfl,
        utf8DecodeStep_two _ _ _ (by omega) (by omega) (by omega) (by omega) (by omega),
        show (192 + c.toNat / 64 - 192) * 64 + (128 + c.toNat % 64 - 128) = c.toNat from
          by omega]
    · by_cases h3 : c.toNat < 65536
      · rw [utf8Bytes_three c h1 h2 h3,
          show [224 + c.toNat / 4096, 128 + (c.toNat / 64) % 64, 128 + c.toNat % 64] ++ bs =
            (224 + c.toNat / 4096) :: (128 + (c.toNat / 64) % 64) ::
              (128 + c.toNat % 64) :: bs from rfl,
          utf8DecodeStep_three _ _ _ _ (by omega) (by omega) (by omega) (by omega)
            (by omega) (by omega) (by omega) (by omega),
          show (224 + c.toNat / 4096 - 224) * 4096 + (128 + (c.toNat / 64) % 64 - 128) * 64 +
            (128 + c.toNat % 64 - 128) = c.toNat from by omega]
      · rw [utf8Bytes_four c h1 h2 h3,
          show [240 + c.toNat / 262144, 128 + (c.toNat / 4096) % 64, 128 + (c.toNat / 64) % 64,
              128 + c.toNat % 64] ++ bs =
            (240 + c.toNat / 262144) :: (128 + (c.toNat / 4096) % 64) ::
              (128 + (c.toNat / 64) % 64) :: (128 + c.toNat % 64) :: bs from rfl,
          utf8DecodeStep_four _ _ _ _ _ (by omega) (by omega) (by omega) (by omega)
            (by omega) (by omega) (by omega) (by omega) (by omega) (by omega),
          show (240 + c.toNat / 262144 - 240) * 262144 + (128 + (c.toNat / 4096) % 64 - 128) *
            4096 + (128 + (c.toNat / 64) % 64 - 128) * 64 + (128 + c.toNat % 64 - 128) =
            c.toNat from by omega]

theorem utf8Bytes_ne_nil (c : Char) : utf8Bytes c ≠ [] := by
  by_cases h1 : c.toNat < 128
  · rw [utf8Bytes_low c h1]
    exact List.cons_ne_nil _ _
  · by_cases h2 : c.toNat < 2048
    · rw [utf8Bytes_two c h1 h2]
      exact List.cons_ne_nil _ _
    · by_cases h3 : c.toNat < 65536
      · rw [utf8Bytes_three c h1 h2 h3]
        exact List.cons_ne_nil _ _
      · rw [utf8Bytes_four c h1 h2 h3]
        exact List.cons_ne_nil _ _

theorem utf8DecodeAux_bytes (cs : List Char) :
    ∀ fuel : Nat, (cs.flatMap utf8Bytes).length ≤ fuel →
      utf8DecodeAux fuel (cs.flatMap utf8Bytes) = some cs := by
  induction cs with
  | nil =>
    intro fuel _
    cases fuel <;> rfl
  | cons c rest ih =>
    intro fuel hfuel
    rw [List.flatMap_cons] at hfuel ⊢
    have hlen1 : 1 ≤ (utf8Bytes c).length := by
      cases hcb : utf8Bytes c with
      | nil => exact absurd hcb (utf8Bytes_ne_nil c)
      | cons x xs => simp
    rw [List.length_append] at hfuel
    cases fuel with
    | zero => omega
    | succ f =>
      have hr : utf8DecodeAux f (rest.flatMap utf8Bytes) = some rest := ih f (by omega)
      have hstep := utf8DecodeStep_bytes c (rest.flatMap utf8Bytes)
      cases hcb : utf8Bytes c with
      | nil => exact absurd hcb (utf8Bytes_ne_nil c)
      | cons x xs =>
        rw [hcb, List.cons_append] at hstep
        rw [List.cons_append, utf8DecodeAux, hstep]
        simp [hr, Char.ofNat_toNat]

theorem utf8Decode_utf8Bytes (cs : List Char) :
    utf8Decode (cs.flatMap utf8Bytes) = some cs :=
  utf8DecodeAux_bytes cs _ (Nat.le_refl _)

/-- C8: percent-decoding the encoded query that build_marketplace_link
substitutes into the URL template recovers the original phrase — the
encoding is injective and reversible on all Unicode text. -/
theorem decode_encode_query_roundtrip (marketplace_name url_template query : String) :
    (build_marketplace_link marketplace_name url_template query).url =
      format_template url_template (encode_query query) ∧
    percentDecode (encode_query query) = some query := by
  refine ⟨rfl, ?_⟩
  show (match percentDecodeBytes (encode_query query).data with
    | none => none
    | some bs => match utf8Decode bs with
      | none => none
      | some cs => some (String.mk cs)) = some query
  have hdata : (encode_query query).data =
      (query.data.flatMap utf8Bytes).flatMap quoteByte := rfl
  have hlt : ∀ b ∈ query.data.flatMap utf8Bytes, b < 256 := by
    intro b hb
    obtain ⟨c, _, hbc⟩ := List.mem_flatMap.mp hb
    exact utf8Bytes_lt_256 c b hbc
  rw [hdata, percentDecodeBytes_quote _ hlt]
  show (match utf8Decode (query.data.flatMap utf8Bytes) with
    | none => none
    | some cs => some (String.mk cs)) = some query
  rw [utf8Decode_utf8Bytes]

